import Mathlib

/-!
Shallow embedding of the lodgify-calendar lambda core
(src/lambda_function/caching.py and src/lambda_function/lodgify.py).

Modelling conventions:
* Calendar dates are modelled as integer day ordinals (`Int`); Python's
  `datetime.date` is in bijection with its ordinal, `+ timedelta(days=1)`
  is `+ 1`, `isoformat` is injective, so ISO-string dict keys are modelled
  by the day ordinal itself.
* HTTP calls are oracles: each fetcher takes the outcome of its single
  `requests.get` as an explicit argument (`HttpResp`), either a raised
  `requests.exceptions.RequestException` or a response with status, text
  and an already-decoded JSON body of the documented shape.
* `build_error_response` produces a structured error record (status,
  message, origin); the JSON/HTTP envelope it builds in `helpers.py` is
  the excluded response-formatting collaborator.
* Python truthiness: error responses are nonempty dicts, hence truthy;
  a found room record is a nonempty dict, hence truthy; a number is falsy
  iff it is 0; `None` is falsy.  These facts are used where the source
  tests `if error:`, `if not availability:`, `if price:`.
* Uncaught Python exceptions are modelled by `PyResult.raise_` /
  `Except.error`.
-/

namespace Lodgify

/-- Ordered association list with Python-dict semantics: lookup finds the
first binding, assignment replaces an existing binding in place and
otherwise appends (Python 3.7+ dicts preserve insertion order). -/
def dictGet {κ α : Type} [DecidableEq κ] : List (κ × α) → κ → Option α
  | [], _ => none
  | (k', v) :: rest, k => if k' = k then some v else dictGet rest k

/-- Python-dict assignment `m[k] = v`: replace the first binding of `k`
in place, or append a new binding at the end. -/
def dictSet {κ α : Type} [DecidableEq κ] : List (κ × α) → κ → α → List (κ × α)
  | [], k, v => [(k, v)]
  | (k', v') :: rest, k, v =>
      if k' = k then (k, v) :: rest else (k', v') :: dictSet rest k v

/-- Structured form of `helpers.build_error_response`: the status code,
the human-readable message, and the origin threaded into the response
headers by the excluded envelope collaborator. -/
structure ErrResponse where
  statusCode : Nat
  message : String
  origin : String
deriving DecidableEq, Repr

/-- `helpers.build_error_response(status_code, message, origin)`. -/
def build_error_response (statusCode : Nat) (message : String) (origin : String) :
    ErrResponse :=
  { statusCode := statusCode, message := message, origin := origin }

/-- Outcome of one `requests.get` call, supplied as an oracle: either a
raised `requests.exceptions.RequestException` (this includes an
undecodable response body, since `requests` raises its own
`JSONDecodeError` subclass there), or a response with HTTP status, text
and decoded JSON body. -/
inductive HttpResp (α : Type) where
  | exn (msg : String)
  | resp (status : Nat) (text : String) (body : α)
deriving DecidableEq, Repr

/-- One element of the `periods` array of an availability record:
`{start, end, available}` where `available` is an integer code and the
source treats exactly the value 1 as available.  The date strings are
modelled by their parsed day ordinals (`helpers.date_from_str`). -/
structure AvailabilityPeriod where
  start : Int
  end_ : Int
  available : Int
deriving DecidableEq, Repr

/-- One per-room-type availability record of the availability endpoint's
response array: `room['room_type_id']` is a required field (the source
indexes it, raising `KeyError` if absent); `periods` is read with
`availability.get('periods', [])`, hence optional. -/
structure Room where
  room_type_id : Int
  periods : Option (List AvailabilityPeriod)
deriving DecidableEq, Repr

/-- One element of a rate calendar item's `prices` list; only
`get('price_per_day')` is read, hence optional. -/
structure PriceEntry where
  price_per_day : Option Int
deriving DecidableEq, Repr

/-- One element of `calendar_items`: `cal.get('date')` (here the parsed
day ordinal) and `cal.get('prices', [])`. -/
structure RateCalendarItem where
  date : Option Int
  prices : Option (List PriceEntry)
deriving DecidableEq, Repr

/-- The `rate_settings` object of the rate endpoint's response; both
fields are read with `.get(..., default)`, hence optional. -/
structure RateSettings where
  currency_code : Option String
  advance_notice_days : Option Int
deriving DecidableEq, Repr

/-- The rate endpoint's response body; both fields optional
(`rates.get('rate_settings', {})`, `rates.get('calendar_items', [])`). -/
structure Rates where
  rate_settings : Option RateSettings
  calendar_items : Option (List RateCalendarItem)
deriving DecidableEq, Repr

/-- The empty dict `{}` that `get_rates` initializes `rates` with. -/
def emptyRates : Rates := { rate_settings := none, calendar_items := none }

/-- `lodgify.get_availability` (lines 28-56), with the HTTP outcome as an
oracle.  `room_type_id` is the value of Python's `int(room_type_id)`
coercion of the query-string parameter.  The for/break loop over
`response.json()` selecting the first record with matching
`room_type_id` is `List.find?`.  A found record is a nonempty dict,
hence truthy, so the trailing `if not error and not availability` adds
the 404 exactly when the 200 branch found no match. -/
def get_availability (room_type_id : Int) : HttpResp (List Room) → String →
    Option Room × Option ErrResponse
  | .exn m, origin =>
      (none, some (build_error_response 500 ("Error fetching availability: " ++ m) origin))
  | .resp status text body, origin =>
      if status ≠ 200 then
        (none, some (build_error_response 500
          ("Error fetching availability: " ++ toString status ++ " " ++ text) origin))
      else
        match body.find? (fun room => room.room_type_id == room_type_id) with
        | some room => (some room, none)
        | none =>
            (none, some (build_error_response 404
              ("Room type " ++ toString room_type_id ++ " not found") origin))

/-- `lodgify.get_rates` (lines 60-82): `rates` is initialized to `{}` and
only replaced by the body on a 200 response; the except branch reuses the
source's literal message "Error fetching availability" (a copy slip kept
faithfully). -/
def get_rates : HttpResp Rates → String → Rates × Option ErrResponse
  | .exn m, origin =>
      (emptyRates, some (build_error_response 500 ("Error fetching availability: " ++ m) origin))
  | .resp status text body, origin =>
      if status ≠ 200 then
        (emptyRates, some (build_error_response 500
          ("Error fetching rates: " ++ toString status ++ " " ++ text) origin))
      else (body, none)

/-- A Python call that either returns or raises an uncaught exception. -/
inductive PyResult (α : Type) where
  | ret (a : α)
  | raise_ (msg : String)
deriving DecidableEq, Repr

/-- The value of the `SecretString` field: either a string that is not
valid JSON (so `json.loads` raises), or a decoded JSON object of string
fields. -/
inductive SecretStringVal where
  | invalid (raw : String)
  | valid (fields : List (String × String))
deriving DecidableEq, Repr

/-- Decoded JSON body of a secret-service response; `SecretString` is
optional (indexing it raises `KeyError` when absent). -/
structure SecretBody where
  SecretString : Option SecretStringVal
deriving DecidableEq, Repr

/-- `lodgify.get_api_key` (lines 123-154) with the module-global
`_cached_api_key` made an explicit state argument and the secret-service
HTTP outcome as an oracle; returns the (result-or-raise, new state) pair.
Only `requests.exceptions.RequestException` is caught: on a 200 response,
a missing `SecretString` key raises `KeyError`, a `SecretString` that is
not valid JSON makes `json.loads` raise `json.JSONDecodeError`, and a
decoded object without `LODGIFY_API_KEY` raises `KeyError` — all
uncaught.  The secret name interpolated into the messages comes from the
environment (excluded configuration) and is elided. -/
def get_api_key : Option String → HttpResp SecretBody → String →
    PyResult (Option String × Option ErrResponse) × Option String
  | some k, _, _ => (.ret (some k, none), some k)
  | none, .exn m, origin =>
      (.ret (none, some (build_error_response 500
        ("Error fetching secret: " ++ m) origin)), none)
  | none, .resp status text body, origin =>
      if status ≠ 200 then
        (.ret (none, some (build_error_response 500
          ("Error fetching secret: " ++ toString status ++ " " ++ text) origin)), none)
      else
        match body.SecretString with
        | none => (.raise_ "KeyError: SecretString", none)
        | some (.invalid _) => (.raise_ "json.JSONDecodeError", none)
        | some (.valid fields) =>
            match dictGet fields "LODGIFY_API_KEY" with
            | none => (.raise_ "KeyError: LODGIFY_API_KEY", none)
            | some k => (.ret (some k, none), some k)

/-- Body of `lodgify.get_availability_and_rates` (lines 88-120), the
function wrapped by the `@cached` decorator.  The two fetcher HTTP
outcomes and whether the join of the two futures raised `TimeoutError`
are oracles; the API key obtained from `get_api_key` only feeds the
request headers, which are absorbed into the oracles.  An uncaught
exception from `get_api_key` propagates.  The final error component is
`availability_error if availability_error else rates_error` (error
responses are nonempty dicts, hence truthy). -/
def get_availability_and_rates (cached_api_key : Option String)
    (secret_fetch : HttpResp SecretBody) (avail_resp : HttpResp (List Room))
    (rates_resp : HttpResp Rates) (timed_out : Bool) (room_type_id : Int)
    (origin : String) : PyResult (Option Room × Option Rates × Option ErrResponse) :=
  match (get_api_key cached_api_key secret_fetch origin).1 with
  | .raise_ m => .raise_ m
  | .ret (_, some e) => .ret (none, none, some e)
  | .ret (_, none) =>
      if timed_out then
        .ret (none, none, some (build_error_response 500
          "Request timed out while fetching availability or rates" origin))
      else
        let ar := get_availability room_type_id avail_resp origin
        let rr := get_rates rates_resp origin
        .ret (ar.1, some rr.1, if ar.2.isSome then ar.2 else rr.2)

/-- The value tuple `(availability, rates, error)` cached by the
`@cached` decorator around `get_availability_and_rates`. -/
abbrev CacheVal := Option Room × Option Rates × Option ErrResponse

/-- The `ResultsCache` contents as an insertion-ordered map from cache-key
strings to result tuples (TTL/LRU eviction is time- and capacity-driven
and orthogonal to the write-filter invariant modelled here). -/
abbrev RCache := List (String × CacheVal)

/-- `caching.ResultsCache.__setitem__` (caching.py lines 13-17): store
the tuple only when its error component `value[2]` is `None`. -/
def ResultsCache.setitem (c : RCache) (key : String) (value : CacheVal) : RCache :=
  if value.2.2 = none then dictSet c key value else c

/-- `caching.cache_key` (caching.py lines 20-24): the f-string
`f"{property_id}_{room_type_id}_{start_date}_{end_date}"`; `origin` is a
parameter but is not used.  The ids are the query-string values
(strings); the dates render via their day ordinal (injective, as
`date.__str__` is). -/
def cache_key (property_id room_type_id : String) (start_date end_date : Int)
    (origin : String) : String :=
  property_id ++ "_" ++ room_type_id ++ "_" ++ toString start_date ++ "_"
    ++ toString end_date

/-- One pass through the `cachetools.cached` wrapper: try `cache[key]`;
on `KeyError` compute the value, attempt `cache[key] = value` (which
`ResultsCache.__setitem__` filters), and return the computed value. -/
def cached_call (c : RCache) (key : String) (compute : CacheVal) : CacheVal × RCache :=
  match dictGet c key with
  | some v => (v, c)
  | none => (compute, ResultsCache.setitem c key compute)

/-- The only uncaught exception the merge function can raise: a dict
lookup `dates[k]` with a missing key (Python `KeyError`, carrying the
key). -/
inductive MergeExn where
  | keyError (key : Int)
deriving DecidableEq, Repr

/-- One per-day entry of the output `dates` map, initialized to the empty
dict `{}`; `available` and `price` keys are set later or never. -/
structure CalendarDay where
  available : Option Bool := none
  price : Option Int := none
deriving DecidableEq, Repr

/-- The empty per-day dict `{}`. -/
def emptyDay : CalendarDay := { available := none, price := none }

/-- The `dates` dict of the merge function. -/
abbrev DMap := List (Int × CalendarDay)

/-- The days `start_date + i` for `i in range((end_date - start_date).days + 1)`
(lodgify.py lines 175-178); empty when the range length is non-positive,
exactly as Python's `range` of a non-positive bound. -/
def dayList (start_date end_date : Int) : List Int :=
  (List.range (end_date - start_date + 1).toNat).map (fun (i : Nat) => start_date + (i : Int))

/-- The init loop `dates[current_date.isoformat()] = {}` over the range. -/
def initDates (start_date end_date : Int) : DMap :=
  (dayList start_date end_date).foldl (fun acc d => dictSet acc d emptyDay) []

/-- `dates[d.isoformat()]["available"] = b`: index the per-day dict
(raising `KeyError` if the day is not a key) and set its `available`
key. -/
def setAvailable (m : DMap) (d : Int) (b : Bool) : Except MergeExn DMap :=
  match dictGet m d with
  | none => .error (.keyError d)
  | some c => .ok (dictSet m d { c with available := some b })

/-- The days walked by the period loop (lodgify.py lines 182-189): the
`while period_end >= period_date` loop advances one day at a time from
`period.start`, i.e. visits exactly the days of `[start, end]`. -/
def periodDays (p : AvailabilityPeriod) : List Int :=
  dayList p.start p.end_

/-- The body of the `while period_end >= period_date` loop (lodgify.py
lines 184-189), one day at a time: every visited day gets
`available = (period_available and day >= first_bookable_day)`, raising
`KeyError` at the first day outside the `dates` keys. -/
def setDays (first_bookable_day : Int) (period_available : Bool) (m : DMap) :
    List Int → Except MergeExn DMap
  | [] => .ok m
  | d :: ds =>
    match setAvailable m d (period_available && decide (first_bookable_day ≤ d)) with
    | .error e => .error e
    | .ok m' => setDays first_bookable_day period_available m' ds

/-- Processing of one availability period (lodgify.py lines 180-189):
`period_available = (period['available'] == 1)`, then walk the period's
days. -/
def markPeriod (first_bookable_day : Int) (m : DMap) (p : AvailabilityPeriod) :
    Except MergeExn DMap :=
  setDays first_bookable_day (p.available == 1) m (periodDays p)

/-- The `for period in availability.get('periods', [])` loop. -/
def runPeriods (first_bookable_day : Int) (m : DMap) :
    List AvailabilityPeriod → Except MergeExn DMap
  | [] => .ok m
  | p :: ps =>
    match markPeriod first_bookable_day m p with
    | .error e => .error e
    | .ok m' => runPeriods first_bookable_day m' ps

/-- Processing of one rate calendar item (lodgify.py lines 191-202): skip
if `cal.get('date')` is falsy; index `dates[rate_date]` (KeyError if
absent); skip unless its `available` is truthy, i.e. exactly `True`;
extract `prices[0].get('price_per_day')` when the prices list is
nonempty; attach it only when truthy (present and nonzero). -/
def applyRate (m : DMap) (cal : RateCalendarItem) : Except MergeExn DMap :=
  match cal.date with
  | none => .ok m
  | some rate_date =>
    match dictGet m rate_date with
    | none => .error (.keyError rate_date)
    | some day =>
        if day.available = some true then
          match (cal.prices.getD []).head? with
          | none => .ok m
          | some entry =>
              match entry.price_per_day with
              | none => .ok m
              | some price =>
                  if price = 0 then .ok m
                  else .ok (dictSet m rate_date { day with price := some price })
        else .ok m

/-- The `for cal in rates.get('calendar_items', [])` loop. -/
def runRates (m : DMap) : List RateCalendarItem → Except MergeExn DMap
  | [] => .ok m
  | cal :: cals =>
    match applyRate m cal with
    | .error e => .error e
    | .ok m' => runRates m' cals

/-- The merge function's output `return_data` (lodgify.py lines 162-170),
with ISO strings replaced by day ordinals and `propertyId` by its id
value.  `room_type_id` is echoed from the availability record (always
present in a record selected by `get_availability`). -/
structure MergeResult where
  startDate : Int
  endDate : Int
  propertyId : Int
  room_type_id : Int
  currency_code : String
  dates : DMap
deriving DecidableEq, Repr

/-- `rates.get('rate_settings', {}).get('advance_notice_days', 2)`. -/
def advanceNoticeDays (rates : Rates) : Int :=
  (rates.rate_settings.bind (fun rs => rs.advance_notice_days)).getD 2

/-- `lodgify.merge_calendar_availability_and_price_data` (lines 157-203),
with the wall-clock `datetime.date.today()` made an explicit `today`
argument.  Currency and advance-notice defaults follow
`rates.get('rate_settings', {}).get(..., default)`; the `dates` dict is
initialized over the whole range, then mutated by the period and rate
loops (here threaded functionally); an out-of-range dict index raises
`KeyError`. -/
def merge_calendar_availability_and_price_data (today start_date end_date property_id : Int)
    (availability : Room) (rates : Rates) : Except MergeExn MergeResult :=
  match runPeriods (today + advanceNoticeDays rates) (initDates start_date end_date)
      (availability.periods.getD []) with
  | .error e => .error e
  | .ok m1 =>
    match runRates m1 (rates.calendar_items.getD []) with
    | .error e => .error e
    | .ok m2 =>
        .ok { startDate := start_date, endDate := end_date, propertyId := property_id,
              room_type_id := availability.room_type_id,
              currency_code := (rates.rate_settings.bind (fun rs => rs.currency_code)).getD "USD",
              dates := m2 }

/-! ### Association-list (Python dict) lemmas -/

theorem dictGet_dictSet_self {κ α : Type} [DecidableEq κ] (m : List (κ × α)) (k : κ) (v : α) :
    dictGet (dictSet m k v) k = some v := by
  induction m with
  | nil => simp [dictGet, dictSet]
  | cons hd tl ih =>
      obtain ⟨k', v'⟩ := hd
      by_cases h : k' = k
      · simp [dictSet, h, dictGet]
      · simp [dictSet, h, dictGet, ih]

theorem dictGet_dictSet_ne {κ α : Type} [DecidableEq κ] (m : List (κ × α)) {k k' : κ}
    (v : α) (h : k' ≠ k) : dictGet (dictSet m k v) k' = dictGet m k' := by
  induction m with
  | nil => simp [dictGet, dictSet, Ne.symm h]
  | cons hd tl ih =>
      obtain ⟨k₀, v₀⟩ := hd
      by_cases hk : k₀ = k
      · subst hk
        simp [dictSet, dictGet, Ne.symm h]
      · simp only [dictSet, if_neg hk]
        by_cases hk' : k₀ = k'
        · simp [dictGet, hk']
        · simp [dictGet, hk', ih]

theorem dictGet_ne_none_iff {κ α : Type} [DecidableEq κ] (m : List (κ × α)) (k : κ) :
    dictGet m k ≠ none ↔ k ∈ m.map Prod.fst := by
  induction m with
  | nil => simp [dictGet]
  | cons hd tl ih =>
      obtain ⟨k', v'⟩ := hd
      by_cases h : k' = k
      · simp [dictGet, h]
      · simp [dictGet, h, ih, Ne.symm h]

theorem keys_dictSet_of_mem {κ α : Type} [DecidableEq κ] {m : List (κ × α)} {k : κ}
    (v : α) (h : dictGet m k ≠ none) :
    (dictSet m k v).map Prod.fst = m.map Prod.fst := by
  induction m with
  | nil => simp [dictGet] at h
  | cons hd tl ih =>
      obtain ⟨k', v'⟩ := hd
      by_cases hk : k' = k
      · simp [dictSet, hk]
      · simp only [dictGet, if_neg hk] at h
        simp [dictSet, hk, ih h]

theorem dictSet_eq_append {κ α : Type} [DecidableEq κ] {m : List (κ × α)} {k : κ}
    (v : α) (h : dictGet m k = none) : dictSet m k v = m ++ [(k, v)] := by
  induction m with
  | nil => simp [dictSet]
  | cons hd tl ih =>
      obtain ⟨k', v'⟩ := hd
      by_cases hk : k' = k
      · simp [dictGet, hk] at h
      · simp only [dictGet, if_neg hk] at h
        simp [dictSet, hk, ih h]

theorem mem_dictSet {κ α : Type} [DecidableEq κ] {m : List (κ × α)} {k : κ} {v : α}
    {x : κ × α} (h : x ∈ dictSet m k v) : x = (k, v) ∨ x ∈ m := by
  induction m with
  | nil => simpa [dictSet] using h
  | cons hd tl ih =>
      obtain ⟨k', v'⟩ := hd
      by_cases hk : k' = k
      · simp only [dictSet, if_pos hk, List.mem_cons] at h
        rcases h with h | h
        · exact Or.inl h
        · exact Or.inr (List.mem_cons_of_mem _ h)
      · simp only [dictSet, if_neg hk, List.mem_cons] at h
        rcases h with h | h
        · exact Or.inr (h ▸ List.mem_cons_self _ _)
        · rcases ih h with h' | h'
          · exact Or.inl h'
          · exact Or.inr (List.mem_cons_of_mem _ h')

theorem dictGet_eq_some_mem {κ α : Type} [DecidableEq κ] {m : List (κ × α)} {k : κ} {v : α}
    (h : dictGet m k = some v) : (k, v) ∈ m := by
  induction m with
  | nil => simp [dictGet] at h
  | cons hd tl ih =>
      obtain ⟨k', v'⟩ := hd
      by_cases hk : k' = k
      · simp only [dictGet, if_pos hk] at h
        subst hk
        injection h with h
        exact h ▸ List.mem_cons_self _ _
      · simp only [dictGet, if_neg hk] at h
        exact List.mem_cons_of_mem _ (ih h)

theorem dictGet_append_of_none {κ α : Type} [DecidableEq κ] {m₁ : List (κ × α)}
    (m₂ : List (κ × α)) {k : κ} (h : dictGet m₁ k = none) :
    dictGet (m₁ ++ m₂) k = dictGet m₂ k := by
  induction m₁ with
  | nil => simp
  | cons hd tl ih =>
      obtain ⟨k', v'⟩ := hd
      by_cases hk : k' = k
      · simp [dictGet, hk] at h
      · simp only [dictGet, if_neg hk] at h
        simpa [dictGet, hk] using ih h

/-! ### Day-range lemmas -/

theorem mem_dayList {s e d : Int} : d ∈ dayList s e ↔ s ≤ d ∧ d ≤ e := by
  unfold dayList
  rw [List.mem_map]
  constructor
  · rintro ⟨i, hi, rfl⟩
    rw [List.mem_range] at hi
    omega
  · intro h
    refine ⟨(d - s).toNat, ?_, ?_⟩
    · rw [List.mem_range]
      omega
    · omega

theorem dayList_pairwise (s e : Int) : (dayList s e).Pairwise (· < ·) := by
  have h := List.pairwise_lt_range ((e - s + 1).toNat)
  exact h.map (fun (i : Nat) => s + (i : Int)) (fun a b hab => by dsimp only; omega)

theorem dayList_nodup (s e : Int) : (dayList s e).Nodup :=
  (dayList_pairwise s e).imp (fun h => ne_of_lt h)

theorem dayList_length (s e : Int) : (dayList s e).length = (e - s + 1).toNat := by
  simp [dayList]

theorem foldl_dictSet_fresh {κ α : Type} [DecidableEq κ] (v₀ : α) (ds : List κ) :
    ∀ acc : List (κ × α), ds.Nodup → (∀ k ∈ ds, dictGet acc k = none) →
      ds.foldl (fun a k => dictSet a k v₀) acc = acc ++ ds.map (fun k => (k, v₀)) := by
  induction ds with
  | nil => intro acc _ _; simp
  | cons k ds ih =>
      intro acc hnd hfresh
      simp only [List.foldl_cons, List.map_cons]
      rw [dictSet_eq_append v₀ (hfresh k (List.mem_cons_self _ _))]
      rw [ih (acc ++ [(k, v₀)]) (List.nodup_cons.mp hnd).2 ?fresh]
      · simp
      case fresh =>
        intro k' hk'
        rw [dictGet_append_of_none _ (hfresh k' (List.mem_cons_of_mem _ hk'))]
        have hne : k ≠ k' := by
          rintro rfl
          exact (List.nodup_cons.mp hnd).1 hk'
        simp [dictGet, hne]

theorem initDates_eq (s e : Int) :
    initDates s e = (dayList s e).map (fun d => (d, emptyDay)) := by
  have h := foldl_dictSet_fresh emptyDay (dayList s e) [] (dayList_nodup s e)
    (fun k _ => rfl)
  simpa [initDates] using h

theorem initDates_keys (s e : Int) :
    (initDates s e).map Prod.fst = dayList s e := by
  rw [initDates_eq, List.map_map]
  exact List.map_id _

theorem initDates_price_none (s e : Int) :
    ∀ x ∈ initDates s e, x.2.price = none := by
  intro x hx
  rw [initDates_eq] at hx
  obtain ⟨d, _, rfl⟩ := List.mem_map.mp hx
  rfl

/-! ### Period-phase lemmas -/

theorem setAvailable_ok_elim {m m' : DMap} {d : Int} {b : Bool}
    (h : setAvailable m d b = .ok m') :
    ∃ c, dictGet m d = some c ∧ m' = dictSet m d { c with available := some b } := by
  unfold setAvailable at h
  cases hg : dictGet m d with
  | none => rw [hg] at h; exact absurd h (by simp)
  | some c =>
      rw [hg] at h
      injection h with h
      exact ⟨c, rfl, h.symm⟩

theorem setAvailable_keys {m m' : DMap} {d : Int} {b : Bool}
    (h : setAvailable m d b = .ok m') : m'.map Prod.fst = m.map Prod.fst := by
  obtain ⟨c, hc, rfl⟩ := setAvailable_ok_elim h
  exact keys_dictSet_of_mem _ (by simp [hc])

theorem setAvailable_ok_of_mem {m : DMap} {d : Int} (b : Bool)
    (h : d ∈ m.map Prod.fst) : ∃ m', setAvailable m d b = .ok m' := by
  cases hg : dictGet m d with
  | none => exact absurd hg ((dictGet_ne_none_iff m d).mpr h)
  | some c => exact ⟨_, by unfold setAvailable; rw [hg]⟩

theorem setDays_ok_elim {fbd : Int} {a : Bool} {ds : List Int} :
    ∀ {m m' : DMap}, setDays fbd a m ds = .ok m' →
      m'.map Prod.fst = m.map Prod.fst ∧ ∀ d ∈ ds, d ∈ m.map Prod.fst := by
  induction ds with
  | nil =>
      intro m m' h
      injection h with h
      simp [h]
  | cons d ds ih =>
      intro m m' h
      unfold setDays at h
      cases hsa : setAvailable m d (a && decide (fbd ≤ d)) with
      | error e => rw [hsa] at h; exact absurd h (by simp)
      | ok m₁ =>
          rw [hsa] at h
          obtain ⟨hkeys, hmem⟩ := ih h
          have hk₁ := setAvailable_keys hsa
          refine ⟨hkeys.trans hk₁, ?_⟩
          intro d' hd'
          rcases List.mem_cons.mp hd' with rfl | hd'
          · obtain ⟨c, hc, _⟩ := setAvailable_ok_elim hsa
            simpa using (dictGet_ne_none_iff m d').mp (by simp [hc])
          · exact hk₁ ▸ hmem d' hd'

theorem setDays_ok_of_mem {fbd : Int} {a : Bool} {ds : List Int} :
    ∀ {m : DMap}, (∀ d ∈ ds, d ∈ m.map Prod.fst) →
      ∃ m', setDays fbd a m ds = .ok m' := by
  induction ds with
  | nil => intro m _; exact ⟨m, rfl⟩
  | cons d ds ih =>
      intro m hmem
      obtain ⟨m₁, hm₁⟩ := setAvailable_ok_of_mem (a && decide (fbd ≤ d))
        (hmem d (List.mem_cons_self _ _))
      have hk₁ := setAvailable_keys hm₁
      obtain ⟨m₂, hm₂⟩ := @ih m₁
        (fun d' hd' => hk₁ ▸ hmem d' (List.mem_cons_of_mem _ hd'))
      exact ⟨m₂, by unfold setDays; rw [hm₁]; exact hm₂⟩

theorem markPeriod_ok_elim {fbd : Int} {p : AvailabilityPeriod} {m m' : DMap}
    (h : markPeriod fbd m p = .ok m') :
    m'.map Prod.fst = m.map Prod.fst ∧ ∀ d ∈ periodDays p, d ∈ m.map Prod.fst :=
  setDays_ok_elim h

theorem runPeriods_ok_elim {fbd : Int} {ps : List AvailabilityPeriod} :
    ∀ {m m' : DMap}, runPeriods fbd m ps = .ok m' →
      m'.map Prod.fst = m.map Prod.fst ∧
        ∀ p ∈ ps, ∀ d ∈ periodDays p, d ∈ m.map Prod.fst := by
  induction ps with
  | nil =>
      intro m m' h
      injection h with h
      simp [h]
  | cons p ps ih =>
      intro m m' h
      unfold runPeriods at h
      cases hmp : markPeriod fbd m p with
      | error e => rw [hmp] at h; exact absurd h (by simp)
      | ok m₁ =>
          rw [hmp] at h
          obtain ⟨hkeys, hmem⟩ := ih h
          obtain ⟨hk₁, hd₁⟩ := markPeriod_ok_elim hmp
          refine ⟨hkeys.trans hk₁, ?_⟩
          intro p' hp' d hd
          rcases List.mem_cons.mp hp' with rfl | hp'
          · exact hd₁ d hd
          · exact hk₁ ▸ hmem p' hp' d hd

theorem runPeriods_ok_of_mem {fbd : Int} {ps : List AvailabilityPeriod} :
    ∀ {m : DMap}, (∀ p ∈ ps, ∀ d ∈ periodDays p, d ∈ m.map Prod.fst) →
      ∃ m', runPeriods fbd m ps = .ok m' := by
  induction ps with
  | nil => intro m _; exact ⟨m, rfl⟩
  | cons p ps ih =>
      intro m hmem
      obtain ⟨m₁, hm₁⟩ := @setDays_ok_of_mem fbd (p.available == 1) (periodDays p) m
        (fun d hd => hmem p (List.mem_cons_self _ _) d hd)
      obtain ⟨hk₁, _⟩ := @markPeriod_ok_elim fbd p m m₁ hm₁
      obtain ⟨m₂, hm₂⟩ := @ih m₁
        (fun p' hp' d hd => hk₁ ▸ hmem p' (List.mem_cons_of_mem _ hp') d hd)
      exact ⟨m₂, by unfold runPeriods; rw [show markPeriod fbd m p = .ok m₁ from hm₁]; exact hm₂⟩

/-! ### Rate-phase lemmas -/

theorem applyRate_ok_spec {m m' : DMap} {cal : RateCalendarItem}
    (h : applyRate m cal = .ok m') :
    m'.map Prod.fst = m.map Prod.fst ∧
    (∀ d, cal.date = some d → d ∈ m.map Prod.fst) ∧
    (m' = m ∨ ∃ rate_date day price entry, cal.date = some rate_date ∧
        dictGet m rate_date = some day ∧ day.available = some true ∧
        (cal.prices.getD []).head? = some entry ∧ entry.price_per_day = some price ∧
        price ≠ 0 ∧ m' = dictSet m rate_date { day with price := some price }) := by
  unfold applyRate at h
  split at h
  next hd =>
    injection h with h
    subst h
    refine ⟨rfl, ?_, Or.inl rfl⟩
    intro d hdd
    rw [hd] at hdd
    cases hdd
  next rate_date hd =>
    have hdmem : dictGet m rate_date ≠ none →
        ∀ d, cal.date = some d → d ∈ m.map Prod.fst := by
      intro hne d hdd
      rw [hd] at hdd
      injection hdd with hdd
      exact hdd ▸ (dictGet_ne_none_iff _ _).mp hne
    split at h
    next hg => exact absurd h (by simp)
    next day hg =>
      have hdm := hdmem (by simp [hg])
      split at h
      next hav =>
        split at h
        next hh =>
          injection h with h
          subst h
          exact ⟨rfl, hdm, Or.inl rfl⟩
        next entry hh =>
          split at h
          next hp =>
            injection h with h
            subst h
            exact ⟨rfl, hdm, Or.inl rfl⟩
          next price hp =>
            split at h
            next hz =>
              injection h with h
              subst h
              exact ⟨rfl, hdm, Or.inl rfl⟩
            next hz =>
              injection h with h
              subst h
              exact ⟨keys_dictSet_of_mem _ (by simp [hg]), hdm,
                Or.inr ⟨rate_date, day, price, entry, hd, hg, hav, hh, hp, hz, rfl⟩⟩
      next hav =>
        injection h with h
        subst h
        exact ⟨rfl, hdm, Or.inl rfl⟩

theorem applyRate_ok_of_mem {m : DMap} {cal : RateCalendarItem}
    (h : ∀ d, cal.date = some d → d ∈ m.map Prod.fst) :
    ∃ m', applyRate m cal = .ok m' := by
  cases har : applyRate m cal with
  | ok m' => exact ⟨m', rfl⟩
  | error e =>
      exfalso
      unfold applyRate at har
      split at har
      next => cases har
      next rate_date hd =>
        split at har
        next hg => exact ((dictGet_ne_none_iff m rate_date).mpr (h rate_date hd)) hg
        next day hg =>
          split at har
          next =>
            split at har
            next => cases har
            next entry hh =>
              split at har
              next => cases har
              next price hp =>
                split at har
                next => cases har
                next => cases har
          next => cases har

theorem runRates_ok_elim {cals : List RateCalendarItem} :
    ∀ {m m' : DMap}, runRates m cals = .ok m' →
      m'.map Prod.fst = m.map Prod.fst ∧
        ∀ cal ∈ cals, ∀ d, cal.date = some d → d ∈ m.map Prod.fst := by
  induction cals with
  | nil =>
      intro m m' h
      injection h with h
      simp [h]
  | cons cal cals ih =>
      intro m m' h
      unfold runRates at h
      cases har : applyRate m cal with
      | error e => rw [har] at h; exact absurd h (by simp)
      | ok m₁ =>
          rw [har] at h
          obtain ⟨hkeys, hmem⟩ := ih h
          obtain ⟨hk₁, hd₁, _⟩ := applyRate_ok_spec har
          refine ⟨hkeys.trans hk₁, ?_⟩
          intro cal' hcal' d hd
          rcases List.mem_cons.mp hcal' with rfl | hcal'
          · exact hd₁ d hd
          · exact hk₁ ▸ hmem cal' hcal' d hd

theorem runRates_ok_of_mem {cals : List RateCalendarItem} :
    ∀ {m : DMap}, (∀ cal ∈ cals, ∀ d, cal.date = some d → d ∈ m.map Prod.fst) →
      ∃ m', runRates m cals = .ok m' := by
  induction cals with
  | nil => intro m _; exact ⟨m, rfl⟩
  | cons cal cals ih =>
      intro m hmem
      obtain ⟨m₁, hm₁⟩ := applyRate_ok_of_mem (fun d hd => hmem cal (List.mem_cons_self _ _) d hd)
      obtain ⟨hk₁, _, _⟩ := applyRate_ok_spec hm₁
      obtain ⟨m₂, hm₂⟩ := @ih m₁
        (fun cal' hcal' d hd => hk₁ ▸ hmem cal' (List.mem_cons_of_mem _ hcal') d hd)
      exact ⟨m₂, by unfold runRates; rw [hm₁]; exact hm₂⟩

/-! ### Availability and price invariants -/

/-- Every entry marked available-true lies on or after the first bookable
day and is covered by some available period of `P`. -/
def AvailInv (P : List AvailabilityPeriod) (fbd : Int) (m : DMap) : Prop :=
  ∀ x ∈ m, x.2.available = some true →
    fbd ≤ x.1 ∧ ∃ p ∈ P, p.available = 1 ∧ p.start ≤ x.1 ∧ x.1 ≤ p.end_

/-- Every entry carrying a price is marked available-true and its price
comes from the head of the price list of some rate item for that day. -/
def PriceInv (items : List RateCalendarItem) (m : DMap) : Prop :=
  ∀ x ∈ m, ∀ pr, x.2.price = some pr →
    x.2.available = some true ∧ ∃ it ∈ items, it.date = some x.1 ∧
      ∃ en, (it.prices.getD []).head? = some en ∧ en.price_per_day = some pr ∧ pr ≠ 0

theorem setDays_availInv {P : List AvailabilityPeriod} {fbd : Int} {p : AvailabilityPeriod}
    (hp : p ∈ P) {ds : List Int} (hds : ∀ d ∈ ds, p.start ≤ d ∧ d ≤ p.end_) :
    ∀ {m m' : DMap}, AvailInv P fbd m →
      setDays fbd (p.available == 1) m ds = .ok m' → AvailInv P fbd m' := by
  induction ds with
  | nil =>
      intro m m' hm h
      injection h with h
      exact h ▸ hm
  | cons d ds ih =>
      intro m m' hm h
      unfold setDays at h
      cases hsa : setAvailable m d ((p.available == 1) && decide (fbd ≤ d)) with
      | error e => rw [hsa] at h; exact absurd h (by simp)
      | ok m₁ =>
          rw [hsa] at h
          refine ih (fun d' hd' => hds d' (List.mem_cons_of_mem _ hd')) ?_ h
          obtain ⟨c, hc, rfl⟩ := setAvailable_ok_elim hsa
          intro x hx hxav
          rcases mem_dictSet hx with rfl | hx'
          · simp only at hxav
            injection hxav with hb
            rw [Bool.and_eq_true] at hb
            have h1 : p.available = 1 := by
              have := hb.1
              rwa [beq_iff_eq] at this
            have h2 : fbd ≤ d := of_decide_eq_true hb.2
            obtain ⟨hl, hr⟩ := hds d (List.mem_cons_self _ _)
            exact ⟨h2, p, hp, h1, hl, hr⟩
          · exact hm x hx' hxav

theorem runPeriods_availInv {P : List AvailabilityPeriod} {fbd : Int}
    {ps : List AvailabilityPeriod} (hps : ∀ p ∈ ps, p ∈ P) :
    ∀ {m m' : DMap}, AvailInv P fbd m →
      runPeriods fbd m ps = .ok m' → AvailInv P fbd m' := by
  induction ps with
  | nil =>
      intro m m' hm h
      injection h with h
      exact h ▸ hm
  | cons p ps ih =>
      intro m m' hm h
      unfold runPeriods at h
      cases hmp : markPeriod fbd m p with
      | error e => rw [hmp] at h; exact absurd h (by simp)
      | ok m₁ =>
          rw [hmp] at h
          refine ih (fun p' hp' => hps p' (List.mem_cons_of_mem _ hp')) ?_ h
          exact setDays_availInv (hps p (List.mem_cons_self _ _))
            (fun d hd => mem_dayList.mp hd) hm hmp

theorem setDays_price_none {fbd : Int} {a : Bool} {ds : List Int} :
    ∀ {m m' : DMap}, (∀ x ∈ m, x.2.price = none) →
      setDays fbd a m ds = .ok m' → ∀ x ∈ m', x.2.price = none := by
  induction ds with
  | nil =>
      intro m m' hm h
      injection h with h
      exact h ▸ hm
  | cons d ds ih =>
      intro m m' hm h
      unfold setDays at h
      cases hsa : setAvailable m d (a && decide (fbd ≤ d)) with
      | error e => rw [hsa] at h; exact absurd h (by simp)
      | ok m₁ =>
          rw [hsa] at h
          refine ih ?_ h
          obtain ⟨c, hc, rfl⟩ := setAvailable_ok_elim hsa
          intro x hx
          rcases mem_dictSet hx with rfl | hx'
          · exact hm (d, c) (dictGet_eq_some_mem hc)
          · exact hm x hx'

theorem runPeriods_price_none {fbd : Int} {ps : List AvailabilityPeriod} :
    ∀ {m m' : DMap}, (∀ x ∈ m, x.2.price = none) →
      runPeriods fbd m ps = .ok m' → ∀ x ∈ m', x.2.price = none := by
  induction ps with
  | nil =>
      intro m m' hm h
      injection h with h
      exact h ▸ hm
  | cons p ps ih =>
      intro m m' hm h
      unfold runPeriods at h
      cases hmp : markPeriod fbd m p with
      | error e => rw [hmp] at h; exact absurd h (by simp)
      | ok m₁ =>
          rw [hmp] at h
          exact ih (setDays_price_none hm hmp) h

theorem runRates_priceInv {items cals : List RateCalendarItem}
    (hsub : ∀ c ∈ cals, c ∈ items) :
    ∀ {m m' : DMap}, PriceInv items m →
      runRates m cals = .ok m' → PriceInv items m' := by
  induction cals with
  | nil =>
      intro m m' hm h
      injection h with h
      exact h ▸ hm
  | cons cal cals ih =>
      intro m m' hm h
      unfold runRates at h
      cases har : applyRate m cal with
      | error e => rw [har] at h; exact absurd h (by simp)
      | ok m₁ =>
          rw [har] at h
          refine ih (fun c hc => hsub c (List.mem_cons_of_mem _ hc)) ?_ h
          obtain ⟨_, _, hcase⟩ := applyRate_ok_spec har
          rcases hcase with rfl | ⟨rate_date, day, price, entry, hd, hg, hav, hh, hp, hz, rfl⟩
          · exact hm
          · intro x hx pr hpr
            rcases mem_dictSet hx with rfl | hx'
            · simp only at hpr ⊢
              injection hpr with hpr
              subst hpr
              exact ⟨hav, cal, hsub cal (List.mem_cons_self _ _), hd, entry, hh, hp, hz⟩
            · exact hm x hx' pr hpr

theorem runRates_availInv {P : List AvailabilityPeriod} {fbd : Int}
    {cals : List RateCalendarItem} :
    ∀ {m m' : DMap}, AvailInv P fbd m →
      runRates m cals = .ok m' → AvailInv P fbd m' := by
  induction cals with
  | nil =>
      intro m m' hm h
      injection h with h
      exact h ▸ hm
  | cons cal cals ih =>
      intro m m' hm h
      unfold runRates at h
      cases har : applyRate m cal with
      | error e => rw [har] at h; exact absurd h (by simp)
      | ok m₁ =>
          rw [har] at h
          refine ih ?_ h
          obtain ⟨_, _, hcase⟩ := applyRate_ok_spec har
          rcases hcase with rfl | ⟨rate_date, day, price, entry, hd, hg, hav, hh, hp, hz, rfl⟩
          · exact hm
          · intro x hx hxav
            rcases mem_dictSet hx with rfl | hx'
            · simp only at hxav
              exact hm (rate_date, day) (dictGet_eq_some_mem hg) hxav
            · exact hm x hx' hxav

/-! ### Merge-level helper lemmas -/

theorem merge_ok_elim {today s e pid : Int} {av : Room} {rts : Rates} {r : MergeResult}
    (h : merge_calendar_availability_and_price_data today s e pid av rts = .ok r) :
    ∃ m₁, runPeriods (today + advanceNoticeDays rts) (initDates s e)
        (av.periods.getD []) = .ok m₁ ∧
      runRates m₁ (rts.calendar_items.getD []) = .ok r.dates := by
  unfold merge_calendar_availability_and_price_data at h
  split at h
  next e' hp => cases h
  next m₁ hp =>
    split at h
    next e' hr => cases h
    next m₂ hr =>
      injection h with h
      subst h
      exact ⟨m₁, hp, hr⟩

theorem merge_ok_intro {today s e pid : Int} {av : Room} {rts : Rates} {m₁ m₂ : DMap}
    (hp : runPeriods (today + advanceNoticeDays rts) (initDates s e)
        (av.periods.getD []) = .ok m₁)
    (hr : runRates m₁ (rts.calendar_items.getD []) = .ok m₂) :
    merge_calendar_availability_and_price_data today s e pid av rts =
      .ok { startDate := s, endDate := e, propertyId := pid,
            room_type_id := av.room_type_id,
            currency_code := (rts.rate_settings.bind (fun rs => rs.currency_code)).getD "USD",
            dates := m₂ } := by
  unfold merge_calendar_availability_and_price_data
  simp only [hp, hr]

theorem merge_ok_dates_keys {today s e pid : Int} {av : Room} {rts : Rates} {r : MergeResult}
    (h : merge_calendar_availability_and_price_data today s e pid av rts = .ok r) :
    r.dates.map Prod.fst = dayList s e := by
  obtain ⟨m₁, hp, hr⟩ := merge_ok_elim h
  have h1 := (runPeriods_ok_elim hp).1
  have h2 := (runRates_ok_elim hr).1
  rw [h2, h1, initDates_keys]

theorem merge_ok_availInv {today s e pid : Int} {av : Room} {rts : Rates} {r : MergeResult}
    (h : merge_calendar_availability_and_price_data today s e pid av rts = .ok r) :
    AvailInv (av.periods.getD []) (today + advanceNoticeDays rts) r.dates := by
  obtain ⟨m₁, hp, hr⟩ := merge_ok_elim h
  have base : AvailInv (av.periods.getD []) (today + advanceNoticeDays rts) (initDates s e) := by
    intro x hx hxa
    rw [initDates_eq] at hx
    obtain ⟨d, _, rfl⟩ := List.mem_map.mp hx
    cases hxa
  exact runRates_availInv (runPeriods_availInv (fun p hp' => hp') base hp) hr

theorem merge_ok_priceInv {today s e pid : Int} {av : Room} {rts : Rates} {r : MergeResult}
    (h : merge_calendar_availability_and_price_data today s e pid av rts = .ok r) :
    PriceInv (rts.calendar_items.getD []) r.dates := by
  obtain ⟨m₁, hp, hr⟩ := merge_ok_elim h
  have pn : ∀ x ∈ m₁, x.2.price = none :=
    runPeriods_price_none (initDates_price_none s e) hp
  have base : PriceInv (rts.calendar_items.getD []) m₁ := by
    intro x hx pr hpr
    rw [pn x hx] at hpr
    cases hpr
  exact runRates_priceInv (fun c hc => hc) base hr

/-! ### Fetcher and aggregator helper lemmas -/

theorem get_availability_200 (room_type_id : Int) (text : String) (rooms : List Room)
    (origin : String) :
    get_availability room_type_id (.resp 200 text rooms) origin =
      match rooms.find? (fun room => room.room_type_id == room_type_id) with
      | some room => (some room, none)
      | none =>
          (none, some (build_error_response 404
            ("Room type " ++ toString room_type_id ++ " not found") origin)) := by
  simp only [get_availability]
  rw [if_neg (by simp)]

theorem get_availability_cases (room_type_id : Int) (ar : HttpResp (List Room)) (o : String) :
    ((get_availability room_type_id ar o).2 = none ∧
      (get_availability room_type_id ar o).1.isSome = true) ∨
    ((get_availability room_type_id ar o).2.isSome = true ∧
      (get_availability room_type_id ar o).1 = none) := by
  cases ar with
  | exn m => exact Or.inr ⟨rfl, rfl⟩
  | resp status text body =>
      by_cases hst : status = 200
      · subst hst
        rw [get_availability_200]
        cases hf : body.find? (fun room => room.room_type_id == room_type_id) with
        | none => exact Or.inr ⟨rfl, rfl⟩
        | some room => exact Or.inl ⟨rfl, rfl⟩
      · have hred : get_availability room_type_id (.resp status text body) o =
            (none, some (build_error_response 500
              ("Error fetching availability: " ++ toString status ++ " " ++ text) o)) := by
          simp only [get_availability]
          rw [if_pos hst]
        rw [hred]
        exact Or.inr ⟨rfl, rfl⟩

theorem get_availability_payload {room_type_id : Int} {ar : HttpResp (List Room)} {o : String}
    (h : (get_availability room_type_id ar o).2 = none) :
    (get_availability room_type_id ar o).1.isSome = true := by
  rcases get_availability_cases room_type_id ar o with ⟨_, h2⟩ | ⟨h1, _⟩
  · exact h2
  · rw [h] at h1
    simp at h1

/-- With a cached API key and no join timeout, the aggregator returns
exactly the two fetcher outcomes with the error-precedence pick. -/
theorem aggregator_key_hit (k : String) (sf : HttpResp SecretBody) (ar : HttpResp (List Room))
    (rr : HttpResp Rates) (room_type_id : Int) (o : String) :
    get_availability_and_rates (some k) sf ar rr false room_type_id o =
      .ret ((get_availability room_type_id ar o).1, some (get_rates rr o).1,
        if (get_availability room_type_id ar o).2.isSome then (get_availability room_type_id ar o).2
        else (get_rates rr o).2) := rfl

/-! ### Claim theorems -/

/-- C1: a value tuple `(availability, rates, error)` is written to the
Result Cache iff its error component is nil — a tuple with a non-null
error is never stored, so after a failed (necessarily uncached) aggregate
call the cache still has no entry for the key, and the next call with
the same key misses the cache and re-invokes the fetch path. -/
theorem claim_C1 (c : RCache) (k : String) (v w : CacheVal) :
    (v.2.2 = none → dictGet (ResultsCache.setitem c k v) k = some v) ∧
    (v.2.2 ≠ none → ResultsCache.setitem c k v = c) ∧
    (dictGet c k = none → v.2.2 ≠ none →
      (cached_call c k v).1 = v ∧ (cached_call c k v).2 = c ∧
      dictGet (cached_call c k v).2 k = none ∧
      (cached_call (cached_call c k v).2 k w).1 = w) := by
  have hsetPos : v.2.2 = none → ResultsCache.setitem c k v = dictSet c k v := by
    intro hv
    unfold ResultsCache.setitem
    rw [if_pos hv]
  have hsetNeg : v.2.2 ≠ none → ResultsCache.setitem c k v = c := by
    intro hv
    unfold ResultsCache.setitem
    rw [if_neg hv]
  refine ⟨?_, hsetNeg, ?_⟩
  · intro hv
    rw [hsetPos hv]
    exact dictGet_dictSet_self c k v
  · intro hmiss hv
    have h1 : cached_call c k v = (v, c) := by
      unfold cached_call
      rw [hmiss, hsetNeg hv]
    rw [h1]
    refine ⟨rfl, rfl, hmiss, ?_⟩
    unfold cached_call
    rw [hmiss]

/-- Witness for C1 at a concrete erroring tuple: the write is refused and
the immediately following call computes afresh. -/
theorem claim_C1_witness :
    ResultsCache.setitem [] "7_5_100_200"
        (none, none, some (build_error_response 500 "boom" "o")) = [] ∧
    (cached_call [] "7_5_100_200"
        (none, none, some (build_error_response 500 "boom" "o"))).2 = [] := by
  have h := claim_C1 [] "7_5_100_200"
    (none, none, some (build_error_response 500 "boom" "o")) (none, none, none)
  exact ⟨h.2.1 (by simp), (h.2.2 rfl (by simp)).2.1⟩

/-- C5: error precedence in the Aggregator — when both fetchers report
errors the availability error is surfaced and the rates error discarded;
when exactly one fails, that error is surfaced. -/
theorem claim_C5 (k : String) (sf : HttpResp SecretBody) (ar : HttpResp (List Room))
    (rr : HttpResp Rates) (room_type_id : Int) (o : String) (ea er : ErrResponse) :
    ((get_availability room_type_id ar o).2 = some ea → (get_rates rr o).2 = some er →
      get_availability_and_rates (some k) sf ar rr false room_type_id o =
        .ret ((get_availability room_type_id ar o).1, some (get_rates rr o).1, some ea)) ∧
    ((get_availability room_type_id ar o).2 = some ea → (get_rates rr o).2 = none →
      get_availability_and_rates (some k) sf ar rr false room_type_id o =
        .ret ((get_availability room_type_id ar o).1, some (get_rates rr o).1, some ea)) ∧
    ((get_availability room_type_id ar o).2 = none → (get_rates rr o).2 = some er →
      get_availability_and_rates (some k) sf ar rr false room_type_id o =
        .ret ((get_availability room_type_id ar o).1, some (get_rates rr o).1, some er)) := by
  refine ⟨?_, ?_, ?_⟩
  · intro h1 h2
    rw [aggregator_key_hit, h1]
    rfl
  · intro h1 h2
    rw [aggregator_key_hit, h1]
    rfl
  · intro h1 h2
    rw [aggregator_key_hit, h1, h2]
    rfl

/-- Witness for C5 at concrete inputs where both fetchers fail with
HTTP 500: the availability error is the one surfaced. -/
theorem claim_C5_witness :
    get_availability_and_rates (some "key") (.exn "x") (.resp 500 "a" ([] : List Room))
        (.resp 500 "b" emptyRates) false 1 "o" =
      .ret ((get_availability 1 (.resp 500 "a" []) "o").1,
        some (get_rates (.resp 500 "b" emptyRates) "o").1,
        some (build_error_response 500
          ("Error fetching availability: " ++ toString (500 : Nat) ++ " " ++ "a") "o")) :=
  (claim_C5 "key" (.exn "x") (.resp 500 "a" []) (.resp 500 "b" emptyRates) 1 "o"
    (build_error_response 500
      ("Error fetching availability: " ++ toString (500 : Nat) ++ " " ++ "a") "o")
    (build_error_response 500
      ("Error fetching rates: " ++ toString (500 : Nat) ++ " " ++ "b") "o")).1 rfl rfl

/-- C6 counterexample: with a cached key, a successful availability fetch
(matching room found) and a failing rates fetch, the aggregator's tuple
carries the availability payload alongside the rates error — a mix of
payload and error, contradicting the claim that an error is never
accompanied by payload data. -/
theorem claim_C6_counterexample :
    get_availability_and_rates (some "key") (.exn "x")
        (.resp 200 "" [{ room_type_id := 5, periods := some [] }])
        (.resp 500 "boom" emptyRates) false 5 "o" =
      .ret (some { room_type_id := 5, periods := some [] }, some emptyRates,
        some (build_error_response 500
          ("Error fetching rates: " ++ toString (500 : Nat) ++ " " ++ "boom") "o")) ∧
    (some ({ room_type_id := 5, periods := some [] } : Room)) ≠ none ∧
    (some (build_error_response 500
      ("Error fetching rates: " ++ toString (500 : Nat) ++ " " ++ "boom") "o")) ≠ none := by
  refine ⟨by decide, by simp, by simp⟩

/-- C6 amended: the error component is nil exactly on full success, and
then both payloads are present; on a failure a single error is surfaced
in the error slot, but the tuple may still carry the succeeding
fetcher's payload alongside it (callers must test the error component,
not payload presence). Here: the full-success half. -/
theorem claim_C6 (cached_api_key : Option String) (sf : HttpResp SecretBody)
    (ar : HttpResp (List Room)) (rr : HttpResp Rates) (t : Bool) (room_type_id : Int)
    (o : String) (a : Option Room) (r : Option Rates)
    (h : get_availability_and_rates cached_api_key sf ar rr t room_type_id o = .ret (a, r, none)) :
    a.isSome = true ∧ r.isSome = true := by
  unfold get_availability_and_rates at h
  split at h
  next m hk => cases h
  next e hk =>
      injection h with h
      have h3 := congrArg (fun x => x.2.2) h
      simp at h3
  next key hk =>
      split at h
      · injection h with h
        have h3 := congrArg (fun x => x.2.2) h
        simp at h3
      · injection h with h
        have h1 := congrArg (fun x => x.1) h
        have h2 := congrArg (fun x => x.2.1) h
        have h3 := congrArg (fun x => x.2.2) h
        simp only at h1 h2 h3
        by_cases hs : (get_availability room_type_id ar o).2.isSome
        · rw [if_pos hs] at h3
          rw [h3] at hs
          simp at hs
        · rw [if_neg hs] at h3
          have hano : (get_availability room_type_id ar o).2 = none := by
            cases hq : (get_availability room_type_id ar o).2 with
            | none => rfl
            | some x => rw [hq] at hs; simp at hs
          constructor
          · rw [← h1]
            exact get_availability_payload hano
          · rw [← h2]
            rfl

/-- Witness for C6 amended at a concrete full success. -/
theorem claim_C6_witness :
    (some ({ room_type_id := 5, periods := some [] } : Room)).isSome = true ∧
    (some emptyRates).isSome = true :=
  claim_C6 (some "key") (.exn "x") (.resp 200 "" [{ room_type_id := 5, periods := some [] }])
    (.resp 200 "" emptyRates) false 5 "o" (some { room_type_id := 5, periods := some [] })
    (some emptyRates) (by decide)

/-- C7 counterexample: on a 200 secret response whose JSON payload lacks
the `SecretString` key, the credential resolver raises an uncaught
`KeyError` instead of returning an error value (only
`requests.exceptions.RequestException` is caught), contradicting the
claim that every failing resolution returns an error value. It still
does not memoize. -/
theorem claim_C7_counterexample :
    get_api_key none (.resp 200 "" { SecretString := none }) "o" =
      (.raise_ "KeyError: SecretString", none) := rfl

/-- C7 amended: on an unreachable secret service (transport error,
including an undecodable body) or a non-200 status, the resolver returns
an error value and does not memoize; a 200 response with a malformed or
key-missing payload raises an uncaught exception; memoization happens
only on a successful key extraction. -/
theorem claim_C7 (fetch : HttpResp SecretBody) (o : String) :
    (∀ msg, fetch = .exn msg →
      get_api_key none fetch o =
        (.ret (none, some (build_error_response 500
          ("Error fetching secret: " ++ msg) o)), none)) ∧
    (∀ status text body, fetch = .resp status text body → status ≠ 200 →
      get_api_key none fetch o =
        (.ret (none, some (build_error_response 500
          ("Error fetching secret: " ++ toString status ++ " " ++ text) o)), none)) ∧
    (∀ res newState, get_api_key none fetch o = (res, newState) → newState ≠ none →
      ∃ key, res = .ret (some key, none) ∧ newState = some key) := by
  refine ⟨?_, ?_, ?_⟩
  · rintro msg rfl
    rfl
  · rintro status text body rfl hst
    simp only [get_api_key]
    rw [if_pos hst]
  · intro res newState h hns
    cases fetch with
    | exn m =>
        rw [show get_api_key none (.exn m) o =
          (.ret (none, some (build_error_response 500
            ("Error fetching secret: " ++ m) o)), none) from rfl] at h
        have h2 := congrArg (fun x => x.2) h
        simp only at h2
        exact absurd h2.symm hns
    | resp status text body =>
        by_cases hst : status = 200
        · subst hst
          obtain ⟨ss⟩ := body
          cases ss with
          | none =>
              rw [show get_api_key none (.resp 200 text ⟨none⟩) o =
                (.raise_ "KeyError: SecretString", none) from rfl] at h
              have h2 := congrArg (fun x => x.2) h
              simp only at h2
              exact absurd h2.symm hns
          | some sv =>
              cases sv with
              | invalid raw =>
                  rw [show get_api_key none (.resp 200 text ⟨some (.invalid raw)⟩) o =
                    (.raise_ "json.JSONDecodeError", none) from rfl] at h
                  have h2 := congrArg (fun x => x.2) h
                  simp only at h2
                  exact absurd h2.symm hns
              | valid fields =>
                  cases hdg : dictGet fields "LODGIFY_API_KEY" with
                  | none =>
                      have hred : get_api_key none (.resp 200 text ⟨some (.valid fields)⟩) o =
                          (.raise_ "KeyError: LODGIFY_API_KEY", none) := by
                        simp only [get_api_key]
                        rw [if_neg (by simp), hdg]
                      rw [hred] at h
                      have h2 := congrArg (fun x => x.2) h
                      simp only at h2
                      exact absurd h2.symm hns
                  | some key =>
                      have hred : get_api_key none (.resp 200 text ⟨some (.valid fields)⟩) o =
                          (.ret (some key, none), some key) := by
                        simp only [get_api_key]
                        rw [if_neg (by simp), hdg]
                      rw [hred] at h
                      have h1 := congrArg (fun x => x.1) h
                      have h2 := congrArg (fun x => x.2) h
                      simp only at h1 h2
                      exact ⟨key, h1.symm, h2.symm⟩
        · have hred : get_api_key none (.resp status text body) o =
              (.ret (none, some (build_error_response 500
                ("Error fetching secret: " ++ toString status ++ " " ++ text) o)), none) := by
            simp only [get_api_key]
            rw [if_pos hst]
          rw [hred] at h
          have h2 := congrArg (fun x => x.2) h
          simp only at h2
          exact absurd h2.symm hns

/-- Witness for C7 amended at a concrete transport failure. -/
theorem claim_C7_witness :
    get_api_key none (.exn "connection refused") "o" =
      (.ret (none, some (build_error_response 500
        ("Error fetching secret: " ++ "connection refused") "o")), none) :=
  (claim_C7 (.exn "connection refused") "o").1 "connection refused" rfl

/-- C8: on an HTTP 200 availability response, if no record's
room-type id equals the requested one the fetcher returns a 404
NotFound error with nil payload; if a matching record exists the
(first) matching record is returned with nil error. -/
theorem claim_C8 (room_type_id : Int) (text : String) (rooms : List Room) (origin : String) :
    ((∀ rm ∈ rooms, rm.room_type_id ≠ room_type_id) →
      get_availability room_type_id (.resp 200 text rooms) origin =
        (none, some (build_error_response 404
          ("Room type " ++ toString room_type_id ++ " not found") origin))) ∧
    ((∃ rm ∈ rooms, rm.room_type_id = room_type_id) →
      ∃ rm, rm ∈ rooms ∧ rm.room_type_id = room_type_id ∧
        get_availability room_type_id (.resp 200 text rooms) origin = (some rm, none)) := by
  constructor
  · intro hno
    have hf : rooms.find? (fun room => room.room_type_id == room_type_id) = none := by
      rw [List.find?_eq_none]
      intro rm hrm
      simp only [beq_iff_eq]
      exact hno rm hrm
    rw [get_availability_200, hf]
  · rintro ⟨rm₀, hmem, heq⟩
    have hsome : (rooms.find? (fun room => room.room_type_id == room_type_id)).isSome = true := by
      rw [List.find?_isSome]
      exact ⟨rm₀, hmem, by simp [beq_iff_eq, heq]⟩
    obtain ⟨rm, hf⟩ := Option.isSome_iff_exists.mp hsome
    refine ⟨rm, List.mem_of_find?_eq_some hf, ?_, ?_⟩
    · have hp := List.find?_some hf
      rwa [beq_iff_eq] at hp
    · rw [get_availability_200, hf]

/-- Witness for C8 at a concrete 200 response containing only a
non-matching room type. -/
theorem claim_C8_witness :
    get_availability 5 (.resp 200 "" [{ room_type_id := 7, periods := none }]) "o" =
      (none, some (build_error_response 404
        ("Room type " ++ toString (5 : Int) ++ " not found") "o")) :=
  (claim_C8 5 "" [{ room_type_id := 7, periods := none }] "o").1 (by decide)

/-- C9: the cache key ignores the caller's origin — two calls differing
only in the origin argument produce the same key, hence map to the same
cache entry. -/
theorem claim_C9 (property_id room_type_id : String) (start_date end_date : Int)
    (o₁ o₂ : String) :
    cache_key property_id room_type_id start_date end_date o₁ =
      cache_key property_id room_type_id start_date end_date o₂ := rfl

/-- Every day of every period and every rate-item date of a successful
merge lies inside the requested range. -/
theorem merge_ok_in_range {today s e pid : Int} {av : Room} {rts : Rates} {r : MergeResult}
    (h : merge_calendar_availability_and_price_data today s e pid av rts = .ok r) :
    (∀ p ∈ av.periods.getD [], ∀ d : Int, p.start ≤ d → d ≤ p.end_ → s ≤ d ∧ d ≤ e) ∧
    (∀ it ∈ rts.calendar_items.getD [], ∀ d : Int, it.date = some d → s ≤ d ∧ d ≤ e) := by
  obtain ⟨m₁, hp, hrr⟩ := merge_ok_elim h
  have hkp := runPeriods_ok_elim hp
  have hkr := runRates_ok_elim hrr
  constructor
  · intro p hpmem d hd1 hd2
    have hd : d ∈ (initDates s e).map Prod.fst :=
      hkp.2 p hpmem d (mem_dayList.mpr ⟨hd1, hd2⟩)
    rw [initDates_keys] at hd
    exact mem_dayList.mp hd
  · intro it hitmem d hd
    have hd' : d ∈ m₁.map Prod.fst := hkr.2 it hitmem d hd
    rw [hkp.1, initDates_keys] at hd'
    exact mem_dayList.mp hd'

/-- When every period day and every rate-item date lies inside the
requested range, the merge succeeds. -/
theorem merge_total {today s e pid : Int} {av : Room} {rts : Rates}
    (hper : ∀ p ∈ av.periods.getD [], ∀ d : Int, p.start ≤ d → d ≤ p.end_ → s ≤ d ∧ d ≤ e)
    (hitems : ∀ it ∈ rts.calendar_items.getD [], ∀ d : Int, it.date = some d → s ≤ d ∧ d ≤ e) :
    ∃ r, merge_calendar_availability_and_price_data today s e pid av rts = .ok r := by
  have h1 : ∀ p ∈ av.periods.getD [], ∀ d ∈ periodDays p,
      d ∈ (initDates s e).map Prod.fst := by
    intro p hp d hd
    rw [initDates_keys]
    have hb := mem_dayList.mp (show d ∈ dayList p.start p.end_ from hd)
    exact mem_dayList.mpr (hper p hp d hb.1 hb.2)
  obtain ⟨m₁, hp⟩ := runPeriods_ok_of_mem h1
  have hkeys : m₁.map Prod.fst = (initDates s e).map Prod.fst := (runPeriods_ok_elim hp).1
  have h2 : ∀ it ∈ rts.calendar_items.getD [], ∀ d, it.date = some d →
      d ∈ m₁.map Prod.fst := by
    intro it hit d hd
    rw [hkeys, initDates_keys]
    exact mem_dayList.mpr (hitems it hit d hd)
  obtain ⟨m₂, hrr⟩ := runRates_ok_of_mem h2
  exact ⟨_, merge_ok_intro hp hrr⟩

/-- C2: for a range with end on or after start spanning N days, with all
period days and rate-item dates inside the range, the merge produces a
dates mapping with exactly N entries whose keys are the distinct days
from start to end inclusive, in chronological (insertion) order. -/
theorem claim_C2 (today s e pid : Int) (av : Room) (rts : Rates)
    (hse : s ≤ e)
    (hper : ∀ p ∈ av.periods.getD [], ∀ d : Int, p.start ≤ d → d ≤ p.end_ → s ≤ d ∧ d ≤ e)
    (hitems : ∀ it ∈ rts.calendar_items.getD [], ∀ d : Int, it.date = some d → s ≤ d ∧ d ≤ e) :
    ∃ r, merge_calendar_availability_and_price_data today s e pid av rts = .ok r ∧
      r.dates.length = (e - s + 1).toNat ∧
      r.dates.map Prod.fst = dayList s e ∧
      (r.dates.map Prod.fst).Pairwise (· < ·) ∧
      (∀ d, d ∈ r.dates.map Prod.fst ↔ (s ≤ d ∧ d ≤ e)) := by
  obtain ⟨r, hr⟩ := merge_total hper hitems
  have hkeys := merge_ok_dates_keys hr
  refine ⟨r, hr, ?_, hkeys, ?_, ?_⟩
  · have hlen : (r.dates.map Prod.fst).length = (dayList s e).length := by rw [hkeys]
    rw [List.length_map] at hlen
    rw [hlen, dayList_length]
  · rw [hkeys]
    exact dayList_pairwise s e
  · intro d
    rw [hkeys]
    exact mem_dayList

/-- Witness for C2 on a concrete 3-day range. -/
theorem claim_C2_witness :
    merge_calendar_availability_and_price_data 0 0 2 9
        { room_type_id := 5, periods := some [] }
        { rate_settings := none, calendar_items := none } =
      .ok { startDate := 0, endDate := 2, propertyId := 9, room_type_id := 5,
            currency_code := "USD",
            dates := [(0, { available := none, price := none }),
                      (1, { available := none, price := none }),
                      (2, { available := none, price := none })] } ∧
    ([(0, { available := none, price := none }),
      (1, { available := none, price := none }),
      (2, { available := none, price := none })] : DMap).length = ((2 : Int) - 0 + 1).toNat := by
  obtain ⟨r, hok, hlen, hkeys, hpw, hmem⟩ := claim_C2 0 0 2 9
    { room_type_id := 5, periods := some [] }
    { rate_settings := none, calendar_items := none } (by decide) (by simp) (by simp)
  have hr2 : merge_calendar_availability_and_price_data 0 0 2 9
      { room_type_id := 5, periods := some [] }
      { rate_settings := none, calendar_items := none } =
      .ok { startDate := 0, endDate := 2, propertyId := 9, room_type_id := 5,
            currency_code := "USD",
            dates := [(0, { available := none, price := none }),
                      (1, { available := none, price := none }),
                      (2, { available := none, price := none })] } := rfl
  have heq : r = { startDate := 0, endDate := 2, propertyId := 9, room_type_id := 5,
                   currency_code := "USD",
                   dates := [(0, { available := none, price := none }),
                             (1, { available := none, price := none }),
                             (2, { available := none, price := none })] } := by
    have hoo := hok.symm.trans hr2
    injection hoo
  rw [heq] at hlen
  exact ⟨hr2, hlen⟩

/-- C3 counterexample: with an empty period list (legitimate
availability data) a day strictly before the first bookable day keeps an
empty CalendarDay — its available field is unset, not false, refuting
"every day strictly before first_bookable_day has available equal to
false regardless of the availability-period data". -/
theorem claim_C3_counterexample :
    merge_calendar_availability_and_price_data 0 0 0 9
        { room_type_id := 5, periods := some [] }
        { rate_settings := none, calendar_items := none } =
      .ok { startDate := 0, endDate := 0, propertyId := 9, room_type_id := 5,
            currency_code := "USD",
            dates := [(0, { available := none, price := none })] } ∧
    (0 : Int) < 0 + advanceNoticeDays { rate_settings := none, calendar_items := none } ∧
    ({ available := none, price := none } : CalendarDay).available ≠ some false := by
  refine ⟨rfl, by decide, by decide⟩

/-- C3 amended: in the merge output no day strictly before
first_bookable_day (today + advance_notice_days) is ever marked
available = true (it is either explicitly false — when some period
covers it — or left unset), and a day is marked available = true only
when some covering period has the available flag set AND the day is on
or after first_bookable_day. -/
theorem claim_C3 (today s e pid : Int) (av : Room) (rts : Rates) (r : MergeResult)
    (h : merge_calendar_availability_and_price_data today s e pid av rts = .ok r) :
    ∀ d c, (d, c) ∈ r.dates →
      (d < today + advanceNoticeDays rts → c.available ≠ some true) ∧
      (c.available = some true →
        today + advanceNoticeDays rts ≤ d ∧
          ∃ p ∈ av.periods.getD [], p.available = 1 ∧ p.start ≤ d ∧ d ≤ p.end_) := by
  intro d c hdc
  have hinv := merge_ok_availInv h
  refine ⟨?_, fun hav => hinv (d, c) hdc hav⟩
  intro hlt hav
  have hge := (hinv (d, c) hdc hav).1
  omega

/-- Witness for C3 amended: the pre-notice day of the counterexample
run is indeed not marked available. -/
theorem claim_C3_witness :
    ({ available := none, price := none } : CalendarDay).available ≠ some true :=
  (claim_C3 0 0 0 9 { room_type_id := 5, periods := some [] }
    { rate_settings := none, calendar_items := none }
    { startDate := 0, endDate := 0, propertyId := 9, room_type_id := 5,
      currency_code := "USD",
      dates := [(0, { available := none, price := none })] } rfl 0
    { available := none, price := none } (by decide)).1 (by decide)

/-- C4: a day whose available is not true never carries a price, and any
price carried by a day comes from the first entry of the price list of
some rate item dated on that day, is present, and is nonzero (falsy
prices are never attached). -/
theorem claim_C4 (today s e pid : Int) (av : Room) (rts : Rates) (r : MergeResult)
    (h : merge_calendar_availability_and_price_data today s e pid av rts = .ok r) :
    ∀ d c, (d, c) ∈ r.dates →
      (c.price ≠ none → c.available = some true) ∧
      (∀ pr, c.price = some pr →
        ∃ it ∈ rts.calendar_items.getD [], it.date = some d ∧
          ∃ en, (it.prices.getD []).head? = some en ∧ en.price_per_day = some pr ∧ pr ≠ 0) := by
  intro d c hdc
  have hinv := merge_ok_priceInv h
  constructor
  · intro hne
    cases hc : c.price with
    | none => exact absurd hc hne
    | some pr => exact (hinv (d, c) hdc pr hc).1
  · intro pr hpr
    exact (hinv (d, c) hdc pr hpr).2

/-- Witness for C4 on a 3-day fully-available range with one rate item:
the priced day is marked available. -/
theorem claim_C4_witness :
    ({ available := some true, price := some 120 } : CalendarDay).available = some true :=
  ((claim_C4 0 0 2 9
    { room_type_id := 5, periods := some [{ start := 0, end_ := 2, available := 1 }] }
    { rate_settings := some { currency_code := some "USD", advance_notice_days := some 0 },
      calendar_items := some [{ date := some 1, prices := some [{ price_per_day := some 120 }] }] }
    { startDate := 0, endDate := 2, propertyId := 9, room_type_id := 5,
      currency_code := "USD",
      dates := [(0, { available := some true, price := none }),
                (1, { available := some true, price := some 120 }),
                (2, { available := some true, price := none })] } rfl) 1
    { available := some true, price := some 120 } (by decide)).1 (by decide)

/-- C10: the merge succeeds exactly when every day of every availability
period and every rate-item date lies inside the requested range; any
out-of-range day makes it fail with a KeyError instead of returning a
calendar. -/
theorem claim_C10 (today s e pid : Int) (av : Room) (rts : Rates) :
    ((merge_calendar_availability_and_price_data today s e pid av rts).isOk = true ↔
      ((∀ p ∈ av.periods.getD [], ∀ d : Int, p.start ≤ d → d ≤ p.end_ → s ≤ d ∧ d ≤ e) ∧
       (∀ it ∈ rts.calendar_items.getD [], ∀ d : Int, it.date = some d → s ≤ d ∧ d ≤ e))) ∧
    (∀ ex, merge_calendar_availability_and_price_data today s e pid av rts = .error ex →
      ∃ k, ex = MergeExn.keyError k) := by
  constructor
  · constructor
    · intro hok
      obtain ⟨r, hr⟩ : ∃ r,
          merge_calendar_availability_and_price_data today s e pid av rts = .ok r := by
        cases hm : merge_calendar_availability_and_price_data today s e pid av rts with
        | ok r => exact ⟨r, rfl⟩
        | error e' => rw [hm] at hok; simp [Except.isOk, Except.toBool] at hok
      exact merge_ok_in_range hr
    · rintro ⟨hper, hitems⟩
      obtain ⟨r, hr⟩ := merge_total hper hitems
      rw [hr]
      rfl
  · intro ex hex
    cases ex with
    | keyError key => exact ⟨key, rfl⟩

/-- Witness for C10: a trivially in-range instance succeeds. -/
theorem claim_C10_witness :
    (merge_calendar_availability_and_price_data 0 0 1 9
      { room_type_id := 5, periods := none }
      { rate_settings := none, calendar_items := none }).isOk = true :=
  (claim_C10 0 0 1 9 { room_type_id := 5, periods := none }
    { rate_settings := none, calendar_items := none }).1.mpr ⟨by simp, by simp⟩

end Lodgify
